import Mathlib

/-!
Shallow embedding of the Tradinglight streaming pipeline
(`market_data.py`, `indicators.py`, `main.py`, `Config.py`) and proofs of the
spec claims about it.

Timestamps are modelled as naturals (the code uses ISO-8601 strings / epoch
values only as an ordering key); prices and volumes as rationals (the code
uses Python floats; no claim here depends on rounding).
-/

/-- One OHLCV bar, as built in `MarketDataStreamer._on_event` for an `ohlc`
event: timestamp plus open/high/low/close/volume. -/
structure Bar where
  timestamp : Nat
  op : Rat
  hi : Rat
  lo : Rat
  cl : Rat
  vol : Rat
deriving DecidableEq, Repr

/-- `collections.deque(maxlen=n).append(b)`: append `b`; when the deque is at
capacity the oldest entries are evicted from the front so that the length
never exceeds `maxlen`. -/
def deque_append (maxlen : Nat) (buf : List Bar) (b : Bar) : List Bar :=
  if buf.length < maxlen then buf ++ [b]
  else (buf ++ [b]).drop (buf.length + 1 - maxlen)

/-- The `ohlc` branch of `MarketDataStreamer._on_event`: the incoming bar is
appended to `self.ohlcv_history` unconditionally (the code performs no
timestamp comparison against the last stored bar). -/
def on_event_ohlc (maxlen : Nat) (buf : List Bar) (b : Bar) : List Bar :=
  deque_append maxlen buf b

/-- Ordering of bars by timestamp, the key pandas sorts on in
`get_ohlcv_dataframe` (`set_index('timestamp').sort_index()`). -/
def barLE (a b : Bar) : Prop := a.timestamp ≤ b.timestamp

instance : DecidableRel barLE := fun a b => Nat.decLe a.timestamp b.timestamp

instance : IsTotal Bar barLE := ⟨fun a b => Nat.le_total a.timestamp b.timestamp⟩

instance : IsTrans Bar barLE := ⟨fun _ _ _ h1 h2 => Nat.le_trans h1 h2⟩

/-- `MarketDataStreamer.get_ohlcv_dataframe`: empty history gives an empty
DataFrame; otherwise the rows are the history re-indexed and sorted by
timestamp (`df.set_index('timestamp').sort_index()`). The `pd.to_numeric`
coercion is the identity here because bar fields are already numeric. -/
def get_ohlcv_dataframe (buf : List Bar) : List Bar :=
  if buf.isEmpty then [] else List.insertionSort barLE buf

-- Capacity invariant of the deque, used for claim C4.

theorem deque_append_length_le (maxlen : Nat) (buf : List Bar) (b : Bar)
    (h : buf.length ≤ maxlen) : (deque_append maxlen buf b).length ≤ maxlen := by
  unfold deque_append
  by_cases hlt : buf.length < maxlen
  · simp [hlt]
    omega
  · simp [hlt]
    omega

theorem foldl_deque_append_length (maxlen : Nat) (bars : List Bar) :
    ∀ buf : List Bar, buf.length ≤ maxlen →
      (bars.foldl (deque_append maxlen) buf).length ≤ maxlen := by
  induction bars with
  | nil => intro buf h; simpa using h
  | cons b rest ih =>
      intro buf h
      simpa using ih (deque_append maxlen buf b) (deque_append_length_le maxlen buf b h)

theorem deque_append_full (maxlen : Nat) (buf : List Bar) (b : Bar)
    (hpos : 0 < maxlen) (hfull : buf.length = maxlen) :
    deque_append maxlen buf b = buf.tail ++ [b] := by
  unfold deque_append
  have hnlt : ¬ buf.length < maxlen := by omega
  simp only [hnlt, if_false]
  have h1 : buf.length + 1 - maxlen = 1 := by omega
  rw [h1]
  cases buf with
  | nil => simp at hfull; omega
  | cons x xs => simp

/-- A bar carrying only the given timestamp, for concrete scenarios. -/
def bt (t : Nat) : Bar := ⟨t, 1, 1, 1, 1, 1⟩

/-- The bar at timestamp 1 used in concrete buffer scenarios. -/
def b1 : Bar := ⟨1, 1, 1, 1, 1, 1⟩

/-- A second bar at timestamp 1 with a different close value. -/
def b1x : Bar := ⟨1, 1, 1, 1, 2, 1⟩

/-- The bar at timestamp 2 used in concrete buffer scenarios. -/
def b2 : Bar := ⟨2, 1, 1, 1, 1, 1⟩

/-- C2 counterexample: with the buffer holding one bar at timestamp 1,
appending a bar with the same timestamp (different close) does not replace the
last entry — the code appends it, the buffer length becomes 2, not 1. -/
theorem on_event_ohlc_equal_ts_no_replace :
    on_event_ohlc 300 [b1] b1x = [b1, b1x] ∧
      (on_event_ohlc 300 [b1] b1x).length = 2 := by decide

/-- C2 (amended): an incoming bar whose timestamp equals the last stored
bar's timestamp is appended as a new entry — below capacity the buffer
becomes `buf ++ [b]` and the length grows by one; no replacement occurs. -/
theorem on_event_ohlc_equal_ts_appends (maxlen : Nat) (buf : List Bar)
    (lb b : Bar) (hlast : buf.getLast? = some lb)
    (hts : b.timestamp = lb.timestamp) (hcap : buf.length < maxlen) :
    on_event_ohlc maxlen buf b = buf ++ [b] ∧
      (on_event_ohlc maxlen buf b).length = buf.length + 1 := by
  unfold on_event_ohlc deque_append
  simp [hcap]

/-- Witness for C2 (amended) at the concrete equal-timestamp scenario. -/
theorem on_event_ohlc_equal_ts_appends_witness :
    on_event_ohlc 300 [b1] b1x = [b1] ++ [b1x] ∧
      (on_event_ohlc 300 [b1] b1x).length = [b1].length + 1 :=
  on_event_ohlc_equal_ts_appends 300 [b1] b1 b1x (by decide) (by decide) (by decide)

/-- C3 counterexample: with the buffer holding one bar at timestamp 2,
appending a bar at timestamp 1 (out of order) is not rejected — the code
appends it and the buffer changes. -/
theorem on_event_ohlc_out_of_order_not_rejected :
    on_event_ohlc 300 [b2] b1 = [b2, b1] ∧ on_event_ohlc 300 [b2] b1 ≠ [b2] := by decide

theorem deque_append_getLast (maxlen : Nat) (buf : List Bar) (b : Bar)
    (hpos : 0 < maxlen) : (deque_append maxlen buf b).getLast? = some b := by
  unfold deque_append
  by_cases hlt : buf.length < maxlen
  · rw [if_pos hlt]
    exact List.getLast?_concat buf
  · rw [if_neg hlt]
    have hle : buf.length + 1 - maxlen ≤ buf.length := by omega
    rw [List.drop_append_of_le_length hle]
    exact List.getLast?_concat _

/-- C3 (amended): an incoming bar whose timestamp is strictly less than the
last stored bar's timestamp is never rejected — the buffer always changes:
below capacity the bar is appended as `buf ++ [b]`, at full positive capacity
it is appended with the oldest entry evicted (`buf.tail ++ [b]`); no error is
raised — the operation is total. -/
theorem on_event_ohlc_out_of_order_appends (maxlen : Nat) (buf : List Bar)
    (lb b : Bar) (hlast : buf.getLast? = some lb)
    (hts : b.timestamp < lb.timestamp) :
    on_event_ohlc maxlen buf b ≠ buf ∧
      (buf.length < maxlen → on_event_ohlc maxlen buf b = buf ++ [b]) ∧
      (0 < maxlen → buf.length = maxlen →
        on_event_ohlc maxlen buf b = buf.tail ++ [b]) := by
  refine ⟨?_, ?_, ?_⟩
  · intro heq
    by_cases hpos : 0 < maxlen
    · have hg := deque_append_getLast maxlen buf b hpos
      have heq2 : deque_append maxlen buf b = buf := heq
      rw [heq2, hlast] at hg
      have hlb : lb = b := Option.some.inj hg
      rw [hlb] at hts
      exact Nat.lt_irrefl _ hts
    · have hm : ¬ buf.length < maxlen := by omega
      have hcut : (buf ++ [b]).drop (buf.length + 1 - maxlen) = [] := by
        apply List.drop_eq_nil_of_le
        simp
        omega
      have heq2 : deque_append maxlen buf b = buf := heq
      unfold deque_append at heq2
      rw [if_neg hm, hcut] at heq2
      have hne : buf ≠ [] := fun hnil => by
        rw [hnil] at hlast
        exact Option.noConfusion hlast
      exact hne heq2.symm
  · intro hlt
    unfold on_event_ohlc deque_append
    rw [if_pos hlt]
  · intro hpos hfull
    exact deque_append_full maxlen buf b hpos hfull

/-- Witness for C3 (amended) at the full-capacity out-of-order scenario: with
capacity 1 and buffer [t2], the bar at t1 is still appended, evicting t2. -/
theorem on_event_ohlc_out_of_order_appends_witness :
    on_event_ohlc 1 [b2] b1 ≠ [b2] ∧
      on_event_ohlc 1 [b2] b1 = [b2].tail ++ [b1] :=
  ⟨(on_event_ohlc_out_of_order_appends 1 [b2] b2 b1 (by decide) (by decide)).1,
    (on_event_ohlc_out_of_order_appends 1 [b2] b2 b1 (by decide) (by decide)).2.2
      (by decide) (by decide)⟩

/-- C4: the History Buffer never exceeds its capacity under any sequence of
appends from empty; an append at full (positive) capacity evicts exactly the
oldest entry; and with capacity 3 appending bars at t1,t2,t3,t4 leaves
exactly the bars at t2,t3,t4. -/
theorem history_buffer_capacity_fifo :
    (∀ (maxlen : Nat) (bars : List Bar),
        (bars.foldl (deque_append maxlen) []).length ≤ maxlen) ∧
    (∀ (maxlen : Nat) (buf : List Bar) (b : Bar), 0 < maxlen →
        buf.length = maxlen → deque_append maxlen buf b = buf.tail ++ [b]) ∧
    [bt 1, bt 2, bt 3, bt 4].foldl (deque_append 3) [] = [bt 2, bt 3, bt 4] := by
  refine ⟨fun maxlen bars => ?_, fun maxlen buf b => deque_append_full maxlen buf b, ?_⟩
  · exact foldl_deque_append_length maxlen bars [] (Nat.zero_le maxlen)
  · decide

/-- Witness for C4 at full capacity 3: the oldest bar is evicted. -/
theorem history_buffer_capacity_fifo_witness :
    deque_append 3 [bt 1, bt 2, bt 3] (bt 4) = [bt 1, bt 2, bt 3].tail ++ [bt 4] :=
  history_buffer_capacity_fifo.2.1 3 [bt 1, bt 2, bt 3] (bt 4) (by decide) (by decide)

/-- C10: for every non-empty buffer, `get_ohlcv_dataframe` returns rows
sorted non-decreasing by timestamp, even when the buffer itself is not. -/
theorem get_ohlcv_dataframe_sorted (buf : List Bar) (hne : buf ≠ []) :
    (get_ohlcv_dataframe buf).Pairwise (fun a b => a.timestamp ≤ b.timestamp) := by
  unfold get_ohlcv_dataframe
  have : buf.isEmpty = false := by
    cases buf with
    | nil => exact absurd rfl hne
    | cons x xs => rfl
  rw [this]
  simp only [Bool.false_eq_true, if_false]
  exact List.sorted_insertionSort barLE buf

/-- Witness for C10 at a concrete unsorted buffer. -/
theorem get_ohlcv_dataframe_sorted_witness :
    (get_ohlcv_dataframe [bt 3, bt 1, bt 2]).Pairwise
      (fun a b => a.timestamp ≤ b.timestamp) :=
  get_ohlcv_dataframe_sorted [bt 3, bt 1, bt 2] (by decide)

/-!
Broadcast Hub (`main.py`): the subscriber registry is `connected_clients`
(a Python list); delivery success per client is abstracted as a predicate
`ok : C → Bool` (the try around `client.send_text` succeeds or raises).
-/

/-- Python `list.remove(c)`: removes the first occurrence of `c`, or raises
`ValueError` (modelled as `Except.error`) when `c` is absent. -/
def py_list_remove {C : Type} [DecidableEq C] (l : List C) (c : C) :
    Except Unit (List C) :=
  if c ∈ l then Except.ok (l.erase c) else Except.error ()

/-- The disconnect handlers of `websocket_endpoint` remove the socket via
`connected_clients.remove(websocket)` — the spec's `unsubscribe`. -/
def unsubscribe {C : Type} [DecidableEq C] (reg : List C) (c : C) :
    Except Unit (List C) :=
  py_list_remove reg c

/-- The broadcast loop of `data_processing_and_broadcasting_task`:
`for client in list(connected_clients)` iterates a copy (`snap`), attempts a
send to each, and on failure removes the client from the live registry.
Returns (clients attempted, final registry, whether an uncaught `ValueError`
escaped from `remove`). -/
def broadcastLoop {C : Type} [DecidableEq C] (ok : C → Bool) :
    List C → List C → List C × List C × Bool
  | [], reg => ([], reg, false)
  | c :: rest, reg =>
    if ok c then
      let r := broadcastLoop ok rest reg
      (c :: r.1, r.2)
    else
      match py_list_remove reg c with
      | Except.ok regE =>
          let r := broadcastLoop ok rest regE
          (c :: r.1, r.2)
      | Except.error _ => ([c], reg, true)

/-- `publish(snapshot)` as performed by the broadcast loop: the copy taken by
`list(connected_clients)` is the registry at the start of the call. -/
def broadcast {C : Type} [DecidableEq C] (ok : C → Bool) (reg : List C) :
    List C × List C × Bool :=
  broadcastLoop ok reg reg

/-- `websocket_endpoint` on connect: appends the socket to
`connected_clients`, then (when a snapshot exists) attempts the initial send;
a failure of that send is only logged — the registry is not touched.
Returns (registry after connect, whether the initial snapshot was delivered). -/
def websocket_connect {C : Type} (reg : List C) (c : C)
    (hasSnapshot sendOk : Bool) : List C × Bool :=
  (reg ++ [c], hasSnapshot && sendOk)

theorem broadcastLoop_attempts {C : Type} [DecidableEq C] (ok : C → Bool) :
    ∀ (s reg : List C), s.Nodup → (∀ x ∈ s, x ∈ reg) →
      (broadcastLoop ok s reg).1 = s ∧ (broadcastLoop ok s reg).2.2 = false := by
  intro s
  induction s with
  | nil => intro reg _ _; exact ⟨rfl, rfl⟩
  | cons c rest ih =>
      intro reg hnd hsub
      have hc : c ∈ reg := hsub c (List.mem_cons_self c rest)
      have hndr : rest.Nodup := hnd.of_cons
      have hcr : c ∉ rest := (List.nodup_cons.1 hnd).1
      unfold broadcastLoop
      by_cases hok : ok c = true
      · rw [if_pos hok]
        have := ih reg hndr (fun x hx => hsub x (List.mem_cons_of_mem c hx))
        exact ⟨congrArg (List.cons c) this.1, this.2⟩
      · rw [if_neg hok]
        unfold py_list_remove
        rw [if_pos hc]
        have hsub2 : ∀ x ∈ rest, x ∈ reg.erase c := by
          intro x hx
          have hne : x ≠ c := fun he => hcr (he ▸ hx)
          exact (List.mem_erase_of_ne hne).2 (hsub x (List.mem_cons_of_mem c hx))
        have := ih (reg.erase c) hndr hsub2
        exact ⟨congrArg (List.cons c) this.1, this.2⟩

/-- C5: `publish` attempts delivery to exactly the subscribers registered at
the start of the call (the set is the copy taken by
`list(connected_clients)`), and one failed delivery does not prevent the
delivery attempts to the remaining subscribers (the loop never aborts). -/
theorem broadcast_targets_start_registry {C : Type} [DecidableEq C]
    (ok : C → Bool) (reg : List C) (hnd : reg.Nodup) :
    (broadcast ok reg).1 = reg ∧ (broadcast ok reg).2.2 = false :=
  broadcastLoop_attempts ok reg reg hnd (fun _ hx => hx)

/-- Witness for C5: with clients 0 and 1 and delivery to 0 failing, both
clients are still attempted and no error escapes. -/
theorem broadcast_targets_start_registry_witness :
    (broadcast (fun c => c != 0) [0, 1]).1 = [0, 1] ∧
      (broadcast (fun c => c != 0) ([0, 1] : List Nat)).2.2 = false :=
  broadcast_targets_start_registry (fun c => c != 0) [0, 1] (by decide)

theorem broadcastLoop_registry_subset {C : Type} [DecidableEq C]
    (ok : C → Bool) :
    ∀ (s reg : List C) (x : C), x ∈ (broadcastLoop ok s reg).2.1 → x ∈ reg := by
  intro s
  induction s with
  | nil => intro reg x hx; exact hx
  | cons c rest ih =>
      intro reg x
      unfold broadcastLoop
      by_cases hok : ok c = true
      · rw [if_pos hok]
        exact fun hx => ih reg x hx
      · rw [if_neg hok]
        unfold py_list_remove
        by_cases hc : c ∈ reg
        · rw [if_pos hc]
          exact fun hx => List.erase_subset c reg (ih (reg.erase c) x hx)
        · rw [if_neg hc]
          exact fun hx => hx

theorem broadcastLoop_failed_removed {C : Type} [DecidableEq C]
    (ok : C → Bool) :
    ∀ (s reg : List C), s.Nodup → reg.Nodup → (∀ x ∈ s, x ∈ reg) →
      ∀ c ∈ s, ok c = false → c ∉ (broadcastLoop ok s reg).2.1 := by
  intro s
  induction s with
  | nil => intro reg _ _ _ c hc; exact absurd hc (List.not_mem_nil c)
  | cons d rest ih =>
      intro reg hnd hreg hsub c hcs hfail
      have hd : d ∈ reg := hsub d (List.mem_cons_self d rest)
      have hndr : rest.Nodup := hnd.of_cons
      have hdr : d ∉ rest := (List.nodup_cons.1 hnd).1
      unfold broadcastLoop
      rcases List.mem_cons.1 hcs with hcd | hcrest
      · subst hcd
        have hfail2 : ¬ ok c = true := by rw [hfail]; exact Bool.false_ne_true
        rw [if_neg hfail2]
        unfold py_list_remove
        rw [if_pos hd]
        intro hmem
        exact hreg.not_mem_erase
          (broadcastLoop_registry_subset ok rest (reg.erase c) c hmem)
      · have hsub2 : ∀ x ∈ rest, x ∈ reg.erase d := by
          intro x hx
          have hne : x ≠ d := fun he => hdr (he ▸ hx)
          exact (List.mem_erase_of_ne hne).2 (hsub x (List.mem_cons_of_mem d hx))
        by_cases hok : ok d = true
        · rw [if_pos hok]
          exact ih reg hndr hreg (fun x hx => hsub x (List.mem_cons_of_mem d hx))
            c hcrest hfail
        · rw [if_neg hok]
          unfold py_list_remove
          rw [if_pos hd]
          exact ih (reg.erase d) hndr (hreg.erase d) hsub2 c hcrest hfail

/-- C6 counterexample: a client whose initial snapshot delivery at subscribe
time fails (`sendOk = false`) is not removed from the registry — it is a
target of the next `publish` call, contradicting the claim. -/
theorem failed_initial_delivery_not_removed :
    (websocket_connect ([] : List Nat) 0 true false).1 = [0] ∧
      0 ∈ (broadcast (fun _ => true)
        (websocket_connect ([] : List Nat) 0 true false).1).1 := by decide

/-- C6 (amended): a subscriber whose delivery fails during `publish` is
removed from the registry, hence absent from the set targeted by the next
`publish`; but a subscriber whose initial snapshot delivery at subscribe time
fails stays registered — the except branch only logs. -/
theorem failed_publish_delivery_removed {C : Type} [DecidableEq C]
    (ok : C → Bool) (reg : List C) (c : C) (hnd : reg.Nodup) (hc : c ∈ reg)
    (hfail : ok c = false) :
    c ∉ (broadcast ok reg).2.1 ∧
      ∀ (reg2 : List C) (c2 : C) (hasSnap sendOk : Bool),
        (websocket_connect reg2 c2 hasSnap sendOk).1 = reg2 ++ [c2] :=
  ⟨broadcastLoop_failed_removed ok reg reg hnd hnd (fun _ hx => hx) c hc hfail,
    fun _ _ _ _ => rfl⟩

/-- Witness for C6 (amended): client 0 fails during publish and is gone from
the final registry; a fresh connect with a failing initial send still appends. -/
theorem failed_publish_delivery_removed_witness :
    0 ∉ (broadcast (fun c => c != 0) ([0, 1] : List Nat)).2.1 ∧
      ∀ (reg2 : List Nat) (c2 : Nat) (hasSnap sendOk : Bool),
        (websocket_connect reg2 c2 hasSnap sendOk).1 = reg2 ++ [c2] :=
  failed_publish_delivery_removed (fun c => c != 0) [0, 1] 0
    (by decide) (by decide) (by decide)

/-- C7 counterexample: removing a subscriber a second time is not a no-op —
after `unsubscribe [0] 0` succeeds, `unsubscribe [] 0` raises (Python
`list.remove` raises `ValueError` when the element is absent). -/
theorem unsubscribe_not_idempotent :
    unsubscribe ([0] : List Nat) 0 = Except.ok [] ∧
      unsubscribe ([] : List Nat) 0 = Except.error () := ⟨rfl, rfl⟩

/-- C7 (amended): `unsubscribe` removes the first occurrence of a present
subscriber; removing an absent (already removed) subscriber raises an error
(`ValueError`) rather than being a no-op — it is not idempotent. -/
theorem unsubscribe_behaviour {C : Type} [DecidableEq C]
    (reg : List C) (c : C) :
    (c ∈ reg → unsubscribe reg c = Except.ok (reg.erase c)) ∧
      (c ∉ reg → unsubscribe reg c = Except.error ()) := by
  constructor
  · intro h; unfold unsubscribe py_list_remove; simp [h]
  · intro h; unfold unsubscribe py_list_remove; simp [h]

/-- Witness for C7 (amended) at concrete registries. -/
theorem unsubscribe_behaviour_witness :
    unsubscribe ([0] : List Nat) 0 = Except.ok (([0] : List Nat).erase 0) ∧
      unsubscribe ([] : List Nat) 0 = Except.error () :=
  ⟨(unsubscribe_behaviour [0] 0).1 (by decide),
    (unsubscribe_behaviour [] 0).2 (by decide)⟩

/-!
Indicator Engine (`indicators.py`). A DataFrame row is modelled with
`Option Rat` cells (`none` = NaN, as produced by `pd.to_numeric` with
coerce). The TA-Lib calls are external library functions; they are embedded
with their documented semantics: each returns a column of the same length as
its input whose first `lookback` entries are NaN (`none`).
-/

/-- An input DataFrame row with open/high/low/close/volume columns; `none`
models a NaN cell. -/
structure RawRow where
  op : Option Rat
  hi : Option Rat
  lo : Option Rat
  cl : Option Rat
  vol : Option Rat
deriving DecidableEq, Repr

/-- A row surviving `df.dropna(subset=['open','high','low','close'])`: the
four OHLC cells are numeric; volume may still be NaN. -/
structure CleanRow where
  op : Rat
  hi : Rat
  lo : Rat
  cl : Rat
  vol : Option Rat
deriving DecidableEq, Repr

/-- `df.dropna(subset=['open','high','low','close'])`: keep exactly the rows
whose four OHLC cells are all numeric. -/
def dropna_ohlc (rows : List RawRow) : List CleanRow :=
  rows.filterMap fun r =>
    match r.op, r.hi, r.lo, r.cl with
    | some o, some h, some l, some c => some ⟨o, h, l, c, r.vol⟩
    | _, _, _, _ => none

/-- `ta.SMA(xs, n)`: simple moving average; NaN for the first `n - 1`
entries. -/
def SMA (n : Nat) (xs : List Rat) : List (Option Rat) :=
  (List.range xs.length).map fun i =>
    if i + 1 < n then none
    else some (((xs.drop (i + 1 - n)).take n).sum / (n : Rat))

/-- The exponential-average recursion `e := prev + k * (x - prev)`. -/
def emaRun (k : Rat) : Rat → List Rat → List Rat
  | _, [] => []
  | prev, x :: xs =>
    let e := prev + k * (x - prev)
    e :: emaRun k e xs

/-- `ta.EMA(xs, n)`: NaN for the first `n - 1` entries, seeded with the SMA
of the first `n` values, then the standard recursion with
`k = 2 / (n + 1)`. -/
def EMA (n : Nat) (xs : List Rat) : List (Option Rat) :=
  if xs.length < n ∨ n = 0 then xs.map fun _ => none
  else
    let seed : Rat := (xs.take n).sum / (n : Rat)
    List.replicate (n - 1) (none : Option Rat) ++
      some seed :: (emaRun (2 / ((n : Rat) + 1)) seed (xs.drop n)).map some

/-- Wilder smoothing `e := (prev * (n - 1) + x) / n`, used by RSI and ATR. -/
def wilderRun (n : Nat) : Rat → List Rat → List Rat
  | _, [] => []
  | prev, x :: xs =>
    let e := (prev * ((n : Rat) - 1) + x) / (n : Rat)
    e :: wilderRun n e xs

/-- `ta.RSI(xs, n)`: NaN for the first `n` entries; Wilder-smoothed average
gains/losses of consecutive differences thereafter. -/
def RSI (n : Nat) (xs : List Rat) : List (Option Rat) :=
  if xs.length ≤ n ∨ n = 0 then xs.map fun _ => none
  else
    let diffs := (xs.zip xs.tail).map fun p => p.2 - p.1
    let gains := diffs.map fun d => max d 0
    let losses := diffs.map fun d => max (-d) 0
    let g0 : Rat := (gains.take n).sum / (n : Rat)
    let l0 : Rat := (losses.take n).sum / (n : Rat)
    let gs := g0 :: wilderRun n g0 (gains.drop n)
    let ls := l0 :: wilderRun n l0 (losses.drop n)
    List.replicate n (none : Option Rat) ++
      ((gs.zip ls).map fun p => 100 - 100 / (1 + p.1 / p.2)).map some

/-- `ta.ROC(xs, n)`: NaN for the first `n` entries; percentage rate of
change over `n` periods thereafter. -/
def ROC (n : Nat) (xs : List Rat) : List (Option Rat) :=
  (List.range xs.length).map fun i =>
    if i < n then none
    else some ((xs.getD i 0 / xs.getD (i - n) 0 - 1) * 100)

/-- True-range sequence over (high, low, close) triples; the first entry has
no previous close. -/
def trList : Option Rat → List (Rat × Rat × Rat) → List Rat
  | _, [] => []
  | prevClose, (h, l, c) :: rest =>
    let tr := match prevClose with
      | none => h - l
      | some pc => max (h - l) (max |h - pc| |l - pc|)
    tr :: trList (some c) rest

/-- `ta.ATR(high, low, close, n)`: NaN for the first `n` entries; Wilder
smoothing of the true range thereafter. -/
def ATR (n : Nat) (hlc : List (Rat × Rat × Rat)) : List (Option Rat) :=
  if hlc.length ≤ n ∨ n = 0 then hlc.map fun _ => none
  else
    let trs := trList none hlc
    let seed : Rat := ((trs.drop 1).take n).sum / (n : Rat)
    List.replicate n (none : Option Rat) ++
      (seed :: wilderRun n seed (trs.drop (n + 1))).map some

/-- A row of the DataFrame after the indicator columns were assigned: the
OHLC cells are numeric, the seven indicator cells (and volume) may be NaN. -/
structure IndRow where
  op : Rat
  hi : Rat
  lo : Rat
  cl : Rat
  vol : Option Rat
  rsi : Option Rat
  sma20 : Option Rat
  sma50 : Option Rat
  ema20 : Option Rat
  ema50 : Option Rat
  roc10 : Option Rat
  atr : Option Rat
deriving DecidableEq, Repr

/-- The column assignments of `calculate_technical_indicators`: each TA-Lib
column is index-aligned with the cleaned rows. -/
def annotate (rows : List CleanRow) : List IndRow :=
  let closes := rows.map fun r => r.cl
  let rsis := RSI 14 closes
  let s20 := SMA 20 closes
  let s50 := SMA 50 closes
  let e20 := EMA 20 closes
  let e50 := EMA 50 closes
  let rocs := ROC 10 closes
  let atrs := ATR 14 (rows.map fun r => (r.hi, r.lo, r.cl))
  (List.range rows.length).map fun i =>
    let r := rows.getD i ⟨0, 0, 0, 0, none⟩
    ⟨r.op, r.hi, r.lo, r.cl, r.vol, rsis.getD i none, s20.getD i none,
      s50.getD i none, e20.getD i none, e50.getD i none, rocs.getD i none,
      atrs.getD i none⟩

/-- The final `df.dropna()` keeps a row iff none of its (optional) cells is
NaN. -/
def rowComplete (r : IndRow) : Bool :=
  r.vol.isSome && r.rsi.isSome && r.sma20.isSome && r.sma50.isSome &&
    r.ema20.isSome && r.ema50.isSome && r.roc10.isSome && r.atr.isSome

/-- `calculate_technical_indicators` (`indicators.py`): returns the input
unchanged (empty) when it is empty, drops rows with NaN OHLC, assigns the
seven indicator columns, and drops every row still containing a NaN. -/
def calculate_technical_indicators (rows : List RawRow) : List IndRow :=
  if rows.isEmpty then []
  else
    let cleaned := dropna_ohlc rows
    if cleaned.isEmpty then []
    else (annotate cleaned).filter rowComplete

theorem length_annotate (rows : List CleanRow) :
    (annotate rows).length = rows.length := by
  unfold annotate
  simp

theorem mem_annotate {rows : List CleanRow} {r : IndRow}
    (h : r ∈ annotate rows) :
    ∃ cr ∈ rows, r.op = cr.op ∧ r.hi = cr.hi ∧ r.lo = cr.lo ∧ r.cl = cr.cl := by
  unfold annotate at h
  simp only [List.mem_map, List.mem_range] at h
  obtain ⟨i, hilt, heq⟩ := h
  refine ⟨rows[i], List.getElem_mem hilt, ?_, ?_, ?_, ?_⟩ <;>
    · rw [← heq]; simp [List.getElem?_eq_getElem hilt]

theorem mem_dropna_ohlc {rows : List RawRow} {cr : CleanRow}
    (hmem : cr ∈ dropna_ohlc rows) :
    ∃ raw ∈ rows, raw.op = some cr.op ∧ raw.hi = some cr.hi ∧
      raw.lo = some cr.lo ∧ raw.cl = some cr.cl := by
  unfold dropna_ohlc at hmem
  obtain ⟨raw, hraw, hf⟩ := List.mem_filterMap.1 hmem
  refine ⟨raw, hraw, ?_⟩
  obtain ⟨o, h, l, c, v⟩ := raw
  rcases o with _ | o <;> rcases h with _ | h <;> rcases l with _ | l <;>
    rcases c with _ | c <;> simp_all
  subst hf
  exact ⟨rfl, rfl, rfl, rfl⟩

/-- Does the OHLC part of output row `r` come from some input row of
`rows`? -/
def derivesFrom (rows : List RawRow) (r : IndRow) : Bool :=
  rows.any fun raw =>
    decide (raw.op = some r.op ∧ raw.hi = some r.hi ∧
      raw.lo = some r.lo ∧ raw.cl = some r.cl)

theorem calculate_technical_indicators_mem {rows : List RawRow} {r : IndRow}
    (hr : r ∈ calculate_technical_indicators rows) :
    rowComplete r = true ∧
      ∃ raw ∈ rows, raw.op = some r.op ∧ raw.hi = some r.hi ∧
        raw.lo = some r.lo ∧ raw.cl = some r.cl := by
  simp only [calculate_technical_indicators] at hr
  by_cases he : rows.isEmpty
  · rw [if_pos he] at hr
    exact absurd hr (List.not_mem_nil r)
  · rw [if_neg he] at hr
    by_cases hc : (dropna_ohlc rows).isEmpty
    · rw [if_pos hc] at hr
      exact absurd hr (List.not_mem_nil r)
    · rw [if_neg hc] at hr
      have h1 := List.mem_filter.1 hr
      refine ⟨h1.2, ?_⟩
      obtain ⟨cr, hcr, ho, hh, hl, hcl⟩ := mem_annotate h1.1
      obtain ⟨raw, hraw, h4⟩ := mem_dropna_ohlc hcr
      refine ⟨raw, hraw, ?_, ?_, ?_, ?_⟩
      · rw [ho]; exact h4.1
      · rw [hh]; exact h4.2.1
      · rw [hl]; exact h4.2.2.1
      · rw [hcl]; exact h4.2.2.2

/-- C9: for every input frame with OHLC columns, the output of
`calculate_technical_indicators` is at most as long as the input, and every
output row has no NaN cell (volume and all seven indicator columns defined)
and takes its OHLC values from some input row. -/
theorem calculate_technical_indicators_no_nan (rows : List RawRow) :
    (calculate_technical_indicators rows).length ≤ rows.length ∧
      (calculate_technical_indicators rows).all
        (fun r => rowComplete r && derivesFrom rows r) = true := by
  constructor
  · simp only [calculate_technical_indicators]
    by_cases he : rows.isEmpty
    · simp [he]
    · rw [if_neg he]
      by_cases hc : (dropna_ohlc rows).isEmpty
      · rw [if_pos hc]
        simp
      · rw [if_neg hc]
        calc ((annotate (dropna_ohlc rows)).filter rowComplete).length
            ≤ (annotate (dropna_ohlc rows)).length := List.length_filter_le _ _
          _ = (dropna_ohlc rows).length := length_annotate _
          _ ≤ rows.length := by
              unfold dropna_ohlc
              exact List.length_filterMap_le _ _
  · rw [List.all_eq_true]
    intro r hr
    obtain ⟨hcomp, raw, hraw, h4⟩ := calculate_technical_indicators_mem hr
    rw [Bool.and_eq_true]
    refine ⟨hcomp, ?_⟩
    unfold derivesFrom
    rw [List.any_eq_true]
    exact ⟨raw, hraw, decide_eq_true h4⟩

/-!
Aggregator Loop and Snapshot (`main.py`,
`data_processing_and_broadcasting_task`).
-/

/-- The `price` event payload stored in `self.current_price`. -/
structure PriceTick where
  symbol : String
  price : Rat
  timestamp : Nat
deriving DecidableEq, Repr

/-- A JSON-compatible value of the broadcast payload dict. -/
inductive SnapVal where
  | priceVal (p : Option PriceTick)
  | indicatorsVal (m : List (String × Rat))
  | barsVal (bars : List Bar)
  | tsVal (t : Nat)
deriving DecidableEq, Repr

/-- The `global_latest_data` dict literal assigned each productive cycle:
keys are exactly `latest_price`, `latest_indicators`, `ohlcv_data`,
`timestamp`; the bars entry is `list(ohlcv_history)[-50:]`. -/
def global_latest_data_update (currentPrice : Option PriceTick)
    (inds : List (String × Rat)) (hist : List Bar) (ts : Nat) :
    List (String × SnapVal) :=
  [("latest_price", SnapVal.priceVal currentPrice),
    ("latest_indicators", SnapVal.indicatorsVal inds),
    ("ohlcv_data", SnapVal.barsVal (hist.drop (hist.length - 50))),
    ("timestamp", SnapVal.tsVal ts)]

/-- `latest_indicators_dict`: the non-NaN entries of the last indicator row
(`{k: v for k, v in series.items() if pd.notna(v)}`). -/
def indicatorsDict (r : IndRow) : List (String × Rat) :=
  ([("open", some r.op), ("high", some r.hi), ("low", some r.lo),
    ("close", some r.cl), ("volume", r.vol), ("RSI", r.rsi),
    ("SMA_20", r.sma20), ("SMA_50", r.sma50), ("EMA_20", r.ema20),
    ("EMA_50", r.ema50), ("MOMENTUM_ROC_10", r.roc10),
    ("ATR", r.atr)]).filterMap fun p => p.2.map fun v => (p.1, v)

/-- The state the aggregator loop carries across iterations. -/
structure AggState where
  lastProcessed : Option Nat
deriving DecidableEq, Repr

/-- A stored bar viewed as an input DataFrame row (all cells numeric). -/
def barToRaw (b : Bar) : RawRow :=
  ⟨some b.op, some b.hi, some b.lo, some b.cl, some b.vol⟩

/-- One iteration of the `while True` body of
`data_processing_and_broadcasting_task`: if the history is non-empty and the
latest bar's timestamp differs from `last_processed_bar_timestamp`, the
indicators are recomputed; when their frame is non-empty a payload is built
and the timestamp recorded; when it is empty the code only logs a warning —
the timestamp is NOT recorded and no payload is produced. -/
def data_cycle (hist : List Bar) (currentPrice : Option PriceTick)
    (st : AggState) : AggState × Option (List (String × SnapVal)) :=
  match hist.getLast? with
  | none => (st, none)
  | some latest =>
    if st.lastProcessed = some latest.timestamp then (st, none)
    else
      let dfInd :=
        calculate_technical_indicators ((get_ohlcv_dataframe hist).map barToRaw)
      match dfInd.getLast? with
      | none => (st, none)
      | some lastRow =>
          (⟨some latest.timestamp⟩,
            some (global_latest_data_update currentPrice
              (indicatorsDict lastRow) hist latest.timestamp))

/-- C1 evaluation at the failing input: with a single bar at timestamp 1 the
indicator frame is empty; the cycle publishes nothing AND leaves
`last_processed_bar_timestamp` unset, so the identical bar is reprocessed on
the next poll — the code does not record the timestamp as the claim/spec
state. -/
theorem empty_indicator_cycle_keeps_timestamp :
    data_cycle [b1] none ⟨none⟩ = (⟨none⟩, none) ∧
      (data_cycle [b1] none ⟨none⟩).1.lastProcessed ≠ some b1.timestamp := by
  decide

/-- C8 counterexample: after an out-of-order append the buffer holds
[t2, t1]; the snapshot published from it has keys `latest_price`,
`latest_indicators`, `ohlcv_data`, `timestamp` — neither `ohlcv` nor
`recent_bars` occurs — and its recent-bars entry `[t2, t1]` is not in
chronological order, contradicting both the claimed field names and the
claimed ordering. -/
theorem snapshot_keys_not_contract :
    (global_latest_data_update none [] (on_event_ohlc 300 [b2] b1) 1).map
        Prod.fst =
        ["latest_price", "latest_indicators", "ohlcv_data", "timestamp"] ∧
      "ohlcv" ∉ (global_latest_data_update none [] (on_event_ohlc 300 [b2] b1)
        1).map Prod.fst ∧
      "recent_bars" ∉ (global_latest_data_update none []
        (on_event_ohlc 300 [b2] b1) 1).map Prod.fst ∧
      (global_latest_data_update none [] (on_event_ohlc 300 [b2] b1)
        1).lookup "ohlcv_data" = some (SnapVal.barsVal [b2, b1]) ∧
      ¬ ([b2, b1].Pairwise fun a b => a.timestamp ≤ b.timestamp) := by
  decide

/-- C8 (amended): every published snapshot is a mapping with exactly the
field names `latest_price`, `latest_indicators` (a mapping), `ohlcv_data`
(holding at most the last 50 bars of the history, a suffix in buffer order),
and `timestamp`. -/
theorem snapshot_shape (currentPrice : Option PriceTick)
    (inds : List (String × Rat)) (hist : List Bar) (ts : Nat) :
    (global_latest_data_update currentPrice inds hist ts).map Prod.fst =
        ["latest_price", "latest_indicators", "ohlcv_data", "timestamp"] ∧
      (global_latest_data_update currentPrice inds hist ts).lookup "ohlcv_data" =
        some (SnapVal.barsVal (hist.drop (hist.length - 50))) ∧
      (hist.drop (hist.length - 50)).length ≤ 50 ∧
      hist.drop (hist.length - 50) <:+ hist := by
  refine ⟨rfl, ?_, ?_, List.drop_suffix _ _⟩
  · rfl
  · rw [List.length_drop]
    omega
